import Mathlib

/-!
Shallow embedding of `logentries/utils.py` (YPlan/logentrieslogger):
the bounded queue, the background socket appender (dispatcher) loop,
the reconnect/backoff policy, and the `LogentriesHandler` producer API.

Strings are modelled as Lean `String`s; wire payloads as `List Char`
(UTF-8 encoding is injective on the char sequence, so framing facts are
stated at the char level).
-/

namespace Logentries

/-- Constant `QUEUE_SIZE = 32768` — size of the internal event queue. -/
def QUEUE_SIZE : Nat := 32768

/-- Constant `MIN_DELAY = 0.1` — minimal delay between reconnect attempts (seconds),
modelled as a rational. -/
def MIN_DELAY : ℚ := 1 / 10

/-- Constant `MAX_DELAY = 10` — maximal delay between reconnect attempts (seconds). -/
def MAX_DELAY : ℚ := 10

/-- Constant `LINE_SEP` — the Unicode line separator U+2028 used to replace embedded
newlines. -/
def LINE_SEP : Char := '\u2028'

/-- Constant `LIBRARY_IDENTIFIER` — identifier sent to the server to identify the
python library. -/
def LIBRARY_IDENTIFIER : String := "###P01### - Library Initialised"

/-- Constant `INVALID_TOKEN` — diagnostic printed when an incorrect token is detected. -/
def INVALID_TOKEN : String :=
  "\n\nIt appears the LOGENTRIES_TOKEN parameter you entered is incorrect!\n\n"

/-- The `dbg` message printed at the start of `LogentriesHandler.emit` the
first time the appender thread is started. -/
def STARTING_MSG : String := "Starting Logentries Asynchronous Socket Appender"

/-- The `dbg` message printed by `SocketAppender.run` when a
`KeyboardInterrupt` is caught. -/
def INTERRUPTED_MSG : String := "Logentries asynchronous socket client interrupted"

/-- Model of `data.replace('\n', LINE_SEP)` from `SocketAppender.run`: Python
`str.replace` with a one-character pattern and one-character replacement maps
each `'\n'` to `LINE_SEP`. -/
def replaceNewlines (s : List Char) : List Char :=
  s.map (fun c => if c = '\n' then LINE_SEP else c)

/-- The framing performed by `SocketAppender.run` on each dequeued message:
replace embedded newlines with `LINE_SEP`, then `multiline += "\n"`.
The result is the char sequence subsequently UTF-8 encoded and sent. -/
def frame (data : String) : List Char :=
  replaceNewlines data.data ++ ['\n']

/-! ## Backoff policy (`SocketAppender.reopenConnection`)

The body of `reopenConnection` initialises `root_delay = MIN_DELAY` and, after
each failed `openConnection` attempt, executes
`root_delay *= 2; if root_delay > MAX_DELAY: root_delay = MAX_DELAY`,
then sleeps `root_delay + random.uniform(0, root_delay)`. -/

/-- One failed-attempt update of `root_delay` in `reopenConnection`:
`root_delay *= 2`, then capped at `MAX_DELAY`. -/
def backoffStep (d : ℚ) : ℚ :=
  let d2 := d * 2
  if d2 > MAX_DELAY then MAX_DELAY else d2

/-- For each k, `delaySeq k` is the value of `root_delay` when the k-th sleep of a
reconnect sequence is performed (`delaySeq 0 = MIN_DELAY` is the initial
value before any failure; the k-th sleep, k ≥ 1, uses `delaySeq k`). -/
def delaySeq : Nat → ℚ
  | 0 => MIN_DELAY
  | k + 1 => backoffStep (delaySeq k)

/-- The jittered sleep duration of `reopenConnection`:
`root_delay + random.uniform(0, root_delay)`. -/
def sleepDuration (d u : ℚ) : ℚ := d + u

/-! ## Send loop of `SocketAppender.run`

The outer loop dequeues a message, frames it, then runs the inner
`while True: try: send; except socket.error: reopenConnection(); continue; break`
loop.  Send outcomes are an oracle `List Bool` (`true` = `send` succeeded,
`false` = `socket.error`).  A failed send transmits nothing; on failure the
dispatcher reconnects and retries the *same* framed payload.  `none` models a
run whose current send loop is still retrying when the oracle is exhausted. -/

/-- The inner send-retry loop of `run` for one framed payload: consume send
outcomes until one succeeds; each `false` triggers a `reopenConnection()` and
a retry of the same payload.  Returns the number of reconnections performed
and the remaining oracle. -/
def sendLoop : List Bool → Option (Nat × List Bool)
  | [] => none
  | true :: rest => some (0, rest)
  | false :: rest =>
    match sendLoop rest with
    | none => none
    | some (n, r) => some (n + 1, r)

/-- The outer `while True` loop of `run` over the (finite prefix of) queue
contents: dequeue each message in FIFO order, frame it, and run `sendLoop`.
Returns the wire: the list of payloads that a successful `send` put on the
socket, in order. -/
def runLoop : List String → List Bool → Option (List (List Char))
  | [], _ => some []
  | m :: ms, outs =>
    (sendLoop outs).bind fun nr =>
      (runLoop ms nr.2).map fun w => frame m :: w

/-! ## `LogentriesHandler` (producer API)

`le_helpers.check_token` and `le_helpers.create_queue` live in
`logentries/helpers.py`, which is not under `src/`; the spec treats
credential validation as an external boolean predicate and the queue as a
bounded blocking FIFO, so they are modelled from the spec below. -/

/-- Modelled from the spec: `le_helpers.create_queue(QUEUE_SIZE)` is a
bounded, FIFO queue of fixed capacity whose blocking `put` inserts at the
tail and blocks the caller when the queue is full.  `put` returning `none`
models the producer blocking indefinitely (there is no error return). -/
structure BQueue where
  capacity : Nat
  items : List String
deriving DecidableEq

/-- Blocking `put`: insert at the tail when below capacity; `none` models
blocking on a full queue. -/
def BQueue.put (q : BQueue) (m : String) : Option BQueue :=
  if q.items.length < q.capacity then some { q with items := q.items ++ [m] }
  else none

/-- The observable state of a `LogentriesHandler` and its `SocketAppender`:
the token, the `good_config` flag, whether the appender thread was started
(`self._thread.is_alive()`), how many times `start()` was called, the shared
queue, and the `dbg` diagnostics printed so far. -/
structure Handler where
  token : String
  good_config : Bool
  started : Bool
  startCount : Nat
  queue : BQueue
  dbgs : List String
deriving DecidableEq

/-- Python `str.rstrip('\n')`: remove all trailing newline characters. -/
def rstripNl (s : String) : String :=
  ⟨(s.data.reverse.dropWhile (fun c => c = '\n')).reverse⟩

/-- Model of `LogentriesHandler.__init__(token)`: record the token, set `good_config`
from the external validity check (printing `INVALID_TOKEN` once when it
fails), create the appender with its fresh `QUEUE_SIZE`-bounded queue, and
put the priming message `token + LIBRARY_IDENTIFIER + '\n'` in the queue.
The appender thread is not started here.  `checkToken` stands for
`le_helpers.check_token`, modelled from the spec as an external boolean
validity predicate. -/
def Handler.init (checkToken : String → Bool) (token : String) : Handler :=
  let q0 : BQueue := { capacity := QUEUE_SIZE, items := [] }
  { token := token
    good_config := checkToken token
    started := false
    startCount := 0
    queue := (q0.put (token ++ LIBRARY_IDENTIFIER ++ "\n")).getD q0
    dbgs := if checkToken token then [] else [INVALID_TOKEN] }

/-- Model of `LogentriesHandler.emit(record)`: if the appender thread is not alive and
the config is good, print the starting diagnostic and start the thread; then
enqueue `token + format(record).rstrip('\n')`, where `formatted` stands for
the output of the external formatting collaborator `self.format(record)`.
`none` models the producer blocking on a full queue. -/
def Handler.emit (h : Handler) (formatted : String) : Option Handler :=
  let h1 :=
    if !h.started && h.good_config then
      { h with started := true
               startCount := h.startCount + 1
               dbgs := h.dbgs ++ [STARTING_MSG] }
    else h
  let msg := h1.token ++ rstripNl formatted
  (h1.queue.put msg).map fun q => { h1 with queue := q }

/-- Iterated `emit` over a list of formatted messages. -/
def Handler.emitAll (h : Handler) : List String → Option Handler
  | [] => some h
  | t :: ts => (h.emit t).bind fun h1 => h1.emitAll ts

/-- Concrete handler sample: a fresh handler with an always-valid token
check and token `"T"`. -/
def sampleHandler : Handler := Handler.init (fun _ => true) "T"

/-- Concrete handler sample after one `emit "hello"`. -/
def sampleEmitted : Handler := (sampleHandler.emit "hello").getD sampleHandler

/-- Concrete handler sample after emitting `"a"` then `"b"`. -/
def sampleEmitted2 : Handler := (sampleHandler.emitAll ["a", "b"]).getD sampleHandler

/-- Concrete wire sample: the dispatcher drains `sampleEmitted`'s queue with
every send succeeding. -/
def sampleWire : List (List Char) :=
  (runLoop sampleEmitted.queue.items [true, true]).getD []

/-! ## Interrupt flow of `SocketAppender.run`

`run` wraps its whole body in `try … except KeyboardInterrupt: dbg(...)` and
always executes `closeConnection()` afterwards.  `except Exception` in
`reopenConnection` and `except socket.error` in the send loop do not catch
`KeyboardInterrupt`, and the sleep's `except KeyboardInterrupt: raise`
re-raises it, so an interrupt delivered at any blocking point propagates to
`run`'s handler.  Blocking-point outcomes are an event oracle. -/

/-- The outcome of one blocking operation of the dispatcher (`queue.get`,
`openConnection`, `time.sleep`, `conn.send`); `intr` is a
`KeyboardInterrupt` delivered at that blocking point. -/
inductive Ev where
  | gotMsg (m : String)
  | connOk
  | connFail
  | sleepDone
  | sendOk
  | sendErr
  | intr
deriving DecidableEq

/-- Result of a sub-loop of `run`: normal return with the remaining events,
a propagating `KeyboardInterrupt` with the remaining events, or `stuck` when
the oracle does not cover the next blocking operation (the loop is still
running when the observation window ends). -/
inductive ExRes (α : Type) where
  | ok (a : α) (rest : List Ev)
  | intr (rest : List Ev)
  | stuck
deriving DecidableEq

mutual

/-- Model of `reopenConnection`'s retry loop: `openConnection` succeeds (`connOk`),
fails with an exception caught by `except Exception` (`connFail`, followed by
the backoff sleep), or is interrupted — `KeyboardInterrupt` is not an
`Exception`, so it propagates. -/
def reopenE : List Ev → ExRes Unit
  | [] => .stuck
  | .connOk :: rest => .ok () rest
  | .connFail :: rest => sleepE rest
  | .intr :: rest => .intr rest
  | _ :: _ => .stuck

/-- The backoff sleep inside `reopenConnection`: on completion the connect
loop iterates; `except KeyboardInterrupt: raise` re-raises an interrupt. -/
def sleepE : List Ev → ExRes Unit
  | [] => .stuck
  | .sleepDone :: rest => reopenE rest
  | .intr :: rest => .intr rest
  | _ :: _ => .stuck

end
/-- The inner send loop of `run` under the event oracle: `send` succeeds,
raises `socket.error` (caught: `reopenConnection()` then retry), or is
interrupted (`socket.error` does not catch `KeyboardInterrupt`, so it
propagates). -/
def sendLoopE : Nat → List Ev → ExRes Unit
  | 0, _ => .stuck
  | _ + 1, .sendOk :: rest => .ok () rest
  | fuel + 1, .sendErr :: rest =>
    match reopenE rest with
    | .ok _ r => sendLoopE fuel r
    | .intr r => .intr r
    | .stuck => .stuck
  | _ + 1, .intr :: rest => .intr rest
  | _ + 1, _ => .stuck

/-- The `while True` dequeue-and-send loop of `run`: it has no normal exit —
it terminates only when a `KeyboardInterrupt` propagates out (`some (wire,
rest)` carries the payloads successfully sent before the interrupt). -/
def mainLoopE : Nat → List Ev → List (List Char) →
    Option (List (List Char) × List Ev)
  | 0, _, _ => none
  | fuel + 1, .gotMsg m :: rest, wire =>
    match sendLoopE (rest.length + 1) rest with
    | .ok _ r => mainLoopE fuel r (wire ++ [frame m])
    | .intr r => some (wire, r)
    | .stuck => none
  | _ + 1, .intr :: rest, wire => some (wire, rest)
  | _ + 1, _, _ => none

/-- What `SocketAppender.run` did when it returned: the payloads sent, the
`dbg` diagnostics printed, and whether `closeConnection()` ran. -/
structure RunOut where
  wire : List (List Char)
  dbgs : List String
  connClosed : Bool
deriving DecidableEq

/-- Model of `SocketAppender.run` under the event oracle: `reopenConnection()`, then
the dequeue-and-send loop, the whole body guarded by
`except KeyboardInterrupt: dbg(INTERRUPTED_MSG)` and followed by
`closeConnection()`.  `some` is a termination of the background task (only a
caught interrupt produces one); `none` means the task is still running. -/
def runE (evs : List Ev) : Option RunOut :=
  match reopenE evs with
  | .intr _ => some { wire := [], dbgs := [INTERRUPTED_MSG], connClosed := true }
  | .ok _ r =>
    match mainLoopE (r.length + 1) r [] with
    | some (wire, _) =>
      some { wire := wire, dbgs := [INTERRUPTED_MSG], connClosed := true }
    | none => none
  | .stuck => none

theorem replaceNewlines_no_newline (s : List Char) :
    ∀ c ∈ replaceNewlines s, c ≠ '\n' := by
  intro c hc
  simp only [replaceNewlines, List.mem_map] at hc
  obtain ⟨a, _, ha⟩ := hc
  subst ha
  by_cases h : a = '\n'
  · rw [if_pos h]
    decide
  · rw [if_neg h]
    exact h

theorem count_replaceNewlines (s : List Char) :
    (replaceNewlines s).count '\n' = 0 := by
  rw [List.count_eq_zero]
  intro h
  exact replaceNewlines_no_newline s '\n' h rfl

theorem backoffStep_eq_min (d : ℚ) : backoffStep d = min (d * 2) MAX_DELAY := by
  by_cases h : d * 2 > MAX_DELAY
  · rw [backoffStep, if_pos h, min_eq_right (le_of_lt h)]
  · rw [backoffStep, if_neg h, min_eq_left (not_lt.mp h)]

theorem delaySeq_closed_form (k : Nat) :
    delaySeq k = min (MIN_DELAY * 2 ^ k) MAX_DELAY := by
  induction k with
  | zero =>
    rw [delaySeq, pow_zero, mul_one, min_eq_left]
    rw [MIN_DELAY, MAX_DELAY]
    norm_num
  | succ n ih =>
    rw [delaySeq, backoffStep_eq_min, ih]
    rw [min_mul_of_nonneg _ _ (by norm_num : (0:ℚ) ≤ 2)]
    rw [min_assoc]
    congr 1
    · ring_nf
    · rw [min_eq_right]
      rw [MAX_DELAY]; norm_num

theorem delaySeq_pos (k : Nat) : 0 < delaySeq k := by
  rw [delaySeq_closed_form, lt_min_iff]
  constructor
  · rw [MIN_DELAY]; positivity
  · rw [MAX_DELAY]; norm_num

theorem runLoop_eq_map_frame (msgs : List String) (outs : List Bool)
    (wire : List (List Char)) (hrun : runLoop msgs outs = some wire) :
    wire = msgs.map frame := by
  induction msgs generalizing outs wire with
  | nil => simp [runLoop] at hrun; simp [hrun]
  | cons m ms ih =>
    rw [runLoop, Option.bind_eq_some] at hrun
    obtain ⟨⟨n, r⟩, _, hmap⟩ := hrun
    rw [Option.map_eq_some'] at hmap
    obtain ⟨w, hr, hw⟩ := hmap
    rw [← hw, List.map_cons, ih r w hr]

theorem frame_append_newline (token : String) :
    frame (token ++ LIBRARY_IDENTIFIER ++ "\n") =
      replaceNewlines (token ++ LIBRARY_IDENTIFIER).data ++ [LINE_SEP, '\n'] := by
  show replaceNewlines ((token ++ LIBRARY_IDENTIFIER ++ "\n").data) ++ ['\n'] = _
  have hdata : (token ++ LIBRARY_IDENTIFIER ++ "\n").data =
      (token ++ LIBRARY_IDENTIFIER).data ++ ['\n'] := by
    simp [String.data_append]
  rw [hdata]
  simp [replaceNewlines]

theorem sendLoop_replicate_false (k : Nat) (rest : List Bool) :
    sendLoop (List.replicate k false ++ true :: rest) = some (k, rest) := by
  induction k with
  | zero => rfl
  | succ n ih =>
    rw [List.replicate_succ, List.cons_append, sendLoop, ih]

theorem emit_unfold (h : Handler) (t : String) :
    h.emit t =
      if h.queue.items.length < h.queue.capacity then
        some { token := h.token
               good_config := h.good_config
               started := h.started || h.good_config
               startCount :=
                 h.startCount + (if !h.started && h.good_config then 1 else 0)
               queue := { capacity := h.queue.capacity
                          items := h.queue.items ++ [h.token ++ rstripNl t] }
               dbgs := h.dbgs ++
                 (if !h.started && h.good_config then [STARTING_MSG] else []) }
      else none := by
  obtain ⟨tok, good, started, cnt, ⟨cap, items⟩, dbgl⟩ := h
  cases started <;> cases good <;>
    simp [Handler.emit, BQueue.put, apply_ite (Option.map _)]

theorem init_queue (ct : String → Bool) (token : String) :
    (Handler.init ct token).queue.items = [token ++ LIBRARY_IDENTIFIER ++ "\n"]
      ∧ (Handler.init ct token).queue.capacity = QUEUE_SIZE
      ∧ (Handler.init ct token).token = token
      ∧ (Handler.init ct token).good_config = ct token
      ∧ (Handler.init ct token).started = false
      ∧ (Handler.init ct token).startCount = 0
      ∧ (Handler.init ct token).dbgs =
          (if ct token then [] else [INVALID_TOKEN]) := by
  refine ⟨?_, ?_, rfl, rfl, rfl, rfl, rfl⟩ <;>
    simp [Handler.init, BQueue.put, QUEUE_SIZE]

/-- Under `emitAll`, the token and config are unchanged and each submission
appends `token ++ rstripNl t` at the tail of the queue, in order. -/
theorem emitAll_items (texts : List String) (h h' : Handler)
    (he : h.emitAll texts = some h') :
    h'.token = h.token ∧ h'.good_config = h.good_config
      ∧ h'.queue.items =
          h.queue.items ++ texts.map (fun t => h.token ++ rstripNl t)
      ∧ h'.queue.capacity = h.queue.capacity := by
  induction texts generalizing h with
  | nil =>
    rw [Handler.emitAll] at he
    cases he
    simp
  | cons t ts ih =>
    rw [Handler.emitAll, Option.bind_eq_some] at he
    obtain ⟨h1, he1, he2⟩ := he
    rw [emit_unfold] at he1
    by_cases hlen : h.queue.items.length < h.queue.capacity
    · rw [if_pos hlen, Option.some.injEq] at he1
      obtain ⟨htok, hgood, hitems, hcap⟩ := ih h1 he2
      subst he1
      simp_all
    · rw [if_neg hlen] at he1
      exact absurd he1 (by simp)

/-- Under `emitAll`, a handler whose thread is already started keeps
`started = true`, the same `startCount` and the same diagnostics. -/
theorem emitAll_started (texts : List String) (h h' : Handler)
    (hst : h.started = true) (he : h.emitAll texts = some h') :
    h'.started = true ∧ h'.startCount = h.startCount ∧ h'.dbgs = h.dbgs := by
  induction texts generalizing h with
  | nil =>
    rw [Handler.emitAll] at he
    cases he
    exact ⟨hst, rfl, rfl⟩
  | cons t ts ih =>
    rw [Handler.emitAll, Option.bind_eq_some] at he
    obtain ⟨h1, he1, he2⟩ := he
    rw [emit_unfold] at he1
    by_cases hlen : h.queue.items.length < h.queue.capacity
    · rw [if_pos hlen, Option.some.injEq] at he1
      subst he1
      have := ih _ (by simp [hst]) he2
      simpa [hst] using this
    · rw [if_neg hlen] at he1
      exact absurd he1 (by simp)

/-- Under `emitAll`, a handler with `good_config = false` never starts the
thread and never prints a further diagnostic. -/
theorem emitAll_bad_config (texts : List String) (h h' : Handler)
    (hg : h.good_config = false) (he : h.emitAll texts = some h') :
    h'.started = h.started ∧ h'.startCount = h.startCount
      ∧ h'.dbgs = h.dbgs := by
  induction texts generalizing h with
  | nil =>
    rw [Handler.emitAll] at he
    cases he
    exact ⟨rfl, rfl, rfl⟩
  | cons t ts ih =>
    rw [Handler.emitAll, Option.bind_eq_some] at he
    obtain ⟨h1, he1, he2⟩ := he
    rw [emit_unfold] at he1
    by_cases hlen : h.queue.items.length < h.queue.capacity
    · rw [if_pos hlen, Option.some.injEq] at he1
      subst he1
      have := ih _ (by simp [hg]) he2
      simpa [hg] using this
    · rw [if_neg hlen] at he1
      exact absurd he1 (by simp)

/-- The operation `emitAll` succeeds exactly while there is room: it returns `some` iff the
queue can absorb all the submissions, and `none` (a producer blocked forever
on the full queue) as soon as they exceed the remaining capacity. -/
theorem emitAll_isSome_iff (texts : List String) (h : Handler)
    (hinv : h.queue.items.length ≤ h.queue.capacity) :
    (h.emitAll texts).isSome = true ↔
      h.queue.items.length + texts.length ≤ h.queue.capacity := by
  induction texts generalizing h with
  | nil =>
    rw [Handler.emitAll]
    simpa using hinv
  | cons t ts ih =>
    rw [Handler.emitAll, emit_unfold]
    by_cases hlen : h.queue.items.length < h.queue.capacity
    · rw [if_pos hlen]
      rw [Option.some_bind]
      rw [ih _ (by simp; omega)]
      simp only [List.length_append, List.length_cons, List.length_nil]
      omega
    · rw [if_neg hlen]
      simp only [Option.none_bind, Option.isSome_none, Bool.false_eq_true,
        false_iff, List.length_cons]
      omega

theorem rstripNl_eq_self (t : String) (h : t.data.getLast? ≠ some '\n') :
    rstripNl t = t := by
  obtain ⟨l⟩ := t
  rw [rstripNl]
  cases hrev : l.reverse with
  | nil =>
    have hl : l = [] := by
      have := congrArg List.reverse hrev
      simpa using this
    simp [hl]
  | cons c rest =>
    have hlast : l.getLast? = some c := by
      have h2 := congrArg List.reverse hrev
      simp only [List.reverse_reverse, List.reverse_cons] at h2
      rw [h2]
      exact List.getLast?_concat _
    have hc : ¬(c = '\n') := fun hh => h (hh ▸ hlast)
    rw [List.dropWhile_cons, if_neg (by simpa using hc)]
    rw [← hrev, List.reverse_reverse]

theorem replaceNewlines_eq_self (s : List Char) (h : ∀ c ∈ s, c ≠ '\n') :
    replaceNewlines s = s := by
  rw [replaceNewlines]
  conv_rhs => rw [← List.map_id s]
  apply List.map_congr_left
  intro a ha
  rw [if_neg (h a ha)]
  rfl

theorem libid_no_newline : ∀ c ∈ LIBRARY_IDENTIFIER.data, c ≠ '\n' := by
  decide

theorem reopen_sleep_intr_mem (evs : List Ev) :
    (∀ r, reopenE evs = .intr r → Ev.intr ∈ evs)
      ∧ (∀ r, sleepE evs = .intr r → Ev.intr ∈ evs) := by
  induction evs with
  | nil =>
    constructor <;> intro r h <;> simp [reopenE, sleepE] at h
  | cons e rest ih =>
    constructor
    · intro r h
      cases e with
      | gotMsg m => simp [reopenE] at h
      | connOk => simp [reopenE] at h
      | connFail =>
        rw [show reopenE (Ev.connFail :: rest) = sleepE rest from rfl] at h
        exact List.mem_cons_of_mem _ (ih.2 r h)
      | sleepDone => simp [reopenE] at h
      | sendOk => simp [reopenE] at h
      | sendErr => simp [reopenE] at h
      | intr => exact List.mem_cons_self _ _
    · intro r h
      cases e with
      | gotMsg m => simp [sleepE] at h
      | connOk => simp [sleepE] at h
      | connFail => simp [sleepE] at h
      | sleepDone =>
        rw [show sleepE (Ev.sleepDone :: rest) = reopenE rest from rfl] at h
        exact List.mem_cons_of_mem _ (ih.1 r h)
      | sendOk => simp [sleepE] at h
      | sendErr => simp [sleepE] at h
      | intr => exact List.mem_cons_self _ _

theorem reopen_sleep_ok_suffix (evs : List Ev) :
    (∀ a r, reopenE evs = .ok a r → ∃ pre, evs = pre ++ r)
      ∧ (∀ a r, sleepE evs = .ok a r → ∃ pre, evs = pre ++ r) := by
  induction evs with
  | nil =>
    constructor <;> intro a r h <;> simp [reopenE, sleepE] at h
  | cons e rest ih =>
    constructor
    · intro a r h
      cases e with
      | gotMsg m => simp [reopenE] at h
      | connOk =>
        rw [show reopenE (Ev.connOk :: rest) = .ok () rest from rfl] at h
        cases h
        exact ⟨[Ev.connOk], rfl⟩
      | connFail =>
        rw [show reopenE (Ev.connFail :: rest) = sleepE rest from rfl] at h
        obtain ⟨pre, hpre⟩ := ih.2 a r h
        exact ⟨Ev.connFail :: pre, by rw [hpre]; rfl⟩
      | sleepDone => simp [reopenE] at h
      | sendOk => simp [reopenE] at h
      | sendErr => simp [reopenE] at h
      | intr => simp [reopenE] at h
    · intro a r h
      cases e with
      | gotMsg m => simp [sleepE] at h
      | connOk => simp [sleepE] at h
      | connFail => simp [sleepE] at h
      | sleepDone =>
        rw [show sleepE (Ev.sleepDone :: rest) = reopenE rest from rfl] at h
        obtain ⟨pre, hpre⟩ := ih.1 a r h
        exact ⟨Ev.sleepDone :: pre, by rw [hpre]; rfl⟩
      | sendOk => simp [sleepE] at h
      | sendErr => simp [sleepE] at h
      | intr => simp [sleepE] at h

theorem sendLoopE_intr_mem :
    ∀ fuel evs r, sendLoopE fuel evs = .intr r → Ev.intr ∈ evs := by
  intro fuel
  induction fuel with
  | zero => intro evs r h; simp [sendLoopE] at h
  | succ n ih =>
    intro evs r h
    match evs with
    | [] => simp [sendLoopE] at h
    | .gotMsg m :: rest => simp [sendLoopE] at h
    | .connOk :: rest => simp [sendLoopE] at h
    | .connFail :: rest => simp [sendLoopE] at h
    | .sleepDone :: rest => simp [sendLoopE] at h
    | .sendOk :: rest => simp [sendLoopE] at h
    | .intr :: rest => exact List.mem_cons_self _ _
    | .sendErr :: rest =>
      rw [sendLoopE] at h
      cases hre : reopenE rest with
      | ok a r2 =>
        rw [hre] at h
        obtain ⟨pre, hpre⟩ := (reopen_sleep_ok_suffix rest).1 a r2 hre
        have hmem := ih r2 r h
        exact List.mem_cons_of_mem _ (by rw [hpre]; exact List.mem_append_right _ hmem)
      | intr r2 =>
        rw [hre] at h
        cases h
        exact List.mem_cons_of_mem _ ((reopen_sleep_intr_mem rest).1 _ hre)
      | stuck =>
        rw [hre] at h
        cases h

theorem sendLoopE_ok_suffix :
    ∀ fuel evs a r, sendLoopE fuel evs = .ok a r → ∃ pre, evs = pre ++ r := by
  intro fuel
  induction fuel with
  | zero => intro evs a r h; simp [sendLoopE] at h
  | succ n ih =>
    intro evs a r h
    match evs with
    | [] => simp [sendLoopE] at h
    | .gotMsg m :: rest => simp [sendLoopE] at h
    | .connOk :: rest => simp [sendLoopE] at h
    | .connFail :: rest => simp [sendLoopE] at h
    | .sleepDone :: rest => simp [sendLoopE] at h
    | .intr :: rest => simp [sendLoopE] at h
    | .sendOk :: rest =>
      rw [sendLoopE] at h
      obtain ⟨-, hr⟩ := ExRes.ok.inj h
      exact ⟨[Ev.sendOk], by rw [hr]; rfl⟩
    | .sendErr :: rest =>
      rw [sendLoopE] at h
      cases hre : reopenE rest with
      | ok b r2 =>
        rw [hre] at h
        obtain ⟨pre1, hpre1⟩ := (reopen_sleep_ok_suffix rest).1 b r2 hre
        obtain ⟨pre2, hpre2⟩ := ih r2 a r h
        exact ⟨Ev.sendErr :: pre1 ++ pre2, by
          rw [hpre1, hpre2]
          simp [List.append_assoc]⟩
      | intr r2 => rw [hre] at h; cases h
      | stuck => rw [hre] at h; cases h

theorem mainLoopE_no_intr :
    ∀ fuel evs wire, Ev.intr ∉ evs → mainLoopE fuel evs wire = none := by
  intro fuel
  induction fuel with
  | zero => intro evs wire _; rfl
  | succ n ih =>
    intro evs wire hni
    match evs with
    | [] => rfl
    | .connOk :: rest => rfl
    | .connFail :: rest => rfl
    | .sleepDone :: rest => rfl
    | .sendOk :: rest => rfl
    | .sendErr :: rest => rfl
    | .intr :: rest => exact absurd (List.mem_cons_self _ _) hni
    | .gotMsg m :: rest =>
      rw [mainLoopE]
      have hni' : Ev.intr ∉ rest := fun hmem => hni (List.mem_cons_of_mem _ hmem)
      cases hs : sendLoopE (rest.length + 1) rest with
      | ok a r =>
        obtain ⟨pre, hpre⟩ := sendLoopE_ok_suffix _ rest a r hs
        exact ih r _ (fun hmem => hni' (by rw [hpre]; exact List.mem_append_right _ hmem))
      | intr r =>
        exact absurd (sendLoopE_intr_mem _ rest r hs) hni'
      | stuck => rfl

/-- C3: For every dequeued message, the transmitted char sequence is the
message with each embedded `'\n'` replaced by the reserved separator U+2028
followed by exactly one trailing `'\n'`: the framed payload contains exactly
one newline character, located at its end, so one queued message occupies
exactly one physical line on the wire. -/
theorem multiline_framing (msg : String) :
    frame msg = msg.data.map (fun c => if c = '\n' then LINE_SEP else c) ++ ['\n']
      ∧ (frame msg).count '\n' = 1
      ∧ (frame msg).getLast? = some '\n'
      ∧ ∀ c ∈ (frame msg).dropLast, c ≠ '\n' := by
  refine ⟨rfl, ?_, ?_, ?_⟩
  · simp [frame, count_replaceNewlines]
  · simp [frame]
  · simp only [frame, List.dropLast_concat]
    exact replaceNewlines_no_newline msg.data

/-- C9: every payload `SocketAppender.run` writes to the socket contains
exactly one newline character, located at its end; and since the priming
message `token + LIBRARY_IDENTIFIER + '\n'` is enqueued with its own trailing
newline, that newline is replaced by `LINE_SEP` in the send loop, so the
framed priming line ends with the separator immediately before the single
newline terminator. -/
theorem payload_newline_invariant (data token : String) :
    ((frame data).count '\n' = 1 ∧ (frame data).getLast? = some '\n')
      ∧ frame (token ++ LIBRARY_IDENTIFIER ++ "\n") =
          replaceNewlines (token ++ LIBRARY_IDENTIFIER).data ++ [LINE_SEP, '\n'] := by
  refine ⟨⟨?_, ?_⟩, ?_⟩
  · simp [frame, count_replaceNewlines]
  · simp [frame]
  · exact frame_append_newline token

/-- C2: in every reconnect sequence the `root_delay` used for the k-th sleep
satisfies `delaySeq (k+1) = min (delaySeq k * 2) MAX_DELAY` starting from
`delaySeq 0 = MIN_DELAY` (so the k-th base delay is `min (0.1 * 2^k) 10`:
0.2, 0.4, 0.8, … capped at 10 and staying at 10 thereafter); each actual
sleep `d + uniform(0, d)` lies in `[d, 2*d]`; and the delay is reset to
`MIN_DELAY` at the start of every reconnect sequence (`root_delay` is a local
of `reopenConnection`, re-initialised on each call). -/
theorem backoff_policy (k : Nat) (u : ℚ) (hu0 : 0 ≤ u) (hu1 : u ≤ delaySeq (k + 1)) :
    delaySeq 0 = MIN_DELAY
      ∧ delaySeq (k + 1) = min (delaySeq k * 2) MAX_DELAY
      ∧ delaySeq (k + 1) = min (MIN_DELAY * 2 ^ (k + 1)) MAX_DELAY
      ∧ (7 ≤ k + 1 → delaySeq (k + 1) = MAX_DELAY)
      ∧ delaySeq (k + 1) ≤ sleepDuration (delaySeq (k + 1)) u
      ∧ sleepDuration (delaySeq (k + 1)) u ≤ 2 * delaySeq (k + 1) := by
  refine ⟨rfl, ?_, delaySeq_closed_form (k + 1), ?_, ?_, ?_⟩
  · rw [delaySeq, backoffStep_eq_min]
  · intro h7
    rw [delaySeq_closed_form, min_eq_right]
    have h2 : (2:ℚ) ^ 7 ≤ 2 ^ (k + 1) :=
      pow_le_pow_right₀ (by norm_num) h7
    calc MAX_DELAY = MIN_DELAY * 2 ^ 7 * (10 / 12.8) := by
              rw [MIN_DELAY, MAX_DELAY]; norm_num
      _ ≤ MIN_DELAY * 2 ^ (k + 1) := by
              rw [MIN_DELAY]
              nlinarith
  · rw [sleepDuration]; linarith
  · rw [sleepDuration]; linarith

/-- Witness for `backoff_policy` at `k = 2`, `u = 1/2`. -/
theorem backoff_policy_witness :
    delaySeq 0 = MIN_DELAY
      ∧ delaySeq 3 = min (delaySeq 2 * 2) MAX_DELAY
      ∧ delaySeq 3 = min (MIN_DELAY * 2 ^ 3) MAX_DELAY
      ∧ (7 ≤ 3 → delaySeq 3 = MAX_DELAY)
      ∧ delaySeq 3 ≤ sleepDuration (delaySeq 3) (1 / 2)
      ∧ sleepDuration (delaySeq 3) (1 / 2) ≤ 2 * delaySeq 3 :=
  backoff_policy 2 (1 / 2) (by norm_num)
    (by rw [delaySeq_closed_form]; rw [MIN_DELAY, MAX_DELAY]; norm_num)

/-- C1: if the dispatcher's main loop drains messages `msgs` against any
oracle of send outcomes without exhausting it, the wire holds exactly one
identically framed copy of every dequeued message, in dequeue order — no
transient send failure drops, duplicates or reorders a message.  Moreover a
message whose send fails `k` times before succeeding causes exactly `k`
reconnections before the loop proceeds to the next message. -/
theorem run_no_message_loss (msgs : List String) (outs : List Bool)
    (wire : List (List Char)) (hrun : runLoop msgs outs = some wire) :
    wire = msgs.map frame
      ∧ ∀ m rest k tail, msgs = m :: rest →
          outs = List.replicate k false ++ true :: tail →
          sendLoop outs = some (k, tail) := by
  constructor
  · exact runLoop_eq_map_frame msgs outs wire hrun
  · intro m rest k tail _ houts
    rw [houts]
    exact sendLoop_replicate_false k tail

/-- Witness for `run_no_message_loss`: two messages, the first send failing
twice before succeeding. -/
theorem run_no_message_loss_witness :
    [frame "alpha", frame "beta"] = List.map frame ["alpha", "beta"]
      ∧ ∀ m rest k tail, ["alpha", "beta"] = m :: rest →
          [false, false, true, true] = List.replicate k false ++ true :: tail →
          sendLoop [false, false, true, true] = some (k, tail) :=
  run_no_message_loss ["alpha", "beta"] [false, false, true, true]
    [frame "alpha", frame "beta"] (by rfl)

/-- C10: with an invalid credential the appender thread never drains the
queue (it is never started), so acceptance is bounded by the queue capacity
`QUEUE_SIZE = 32768`: one slot is taken by the priming message at
construction, after 32767 further submissions the queue is full, and the
next submission blocks indefinitely (modelled by `emit` returning `none`)
instead of being accepted. -/
theorem invalid_token_backpressure (ct : String → Bool) (token : String)
    (texts : List String) (hct : ct token = false)
    (hlen : texts.length = QUEUE_SIZE - 1) :
    QUEUE_SIZE = 32768
      ∧ (∃ h', (Handler.init ct token).emitAll texts = some h'
          ∧ h'.started = false
          ∧ h'.queue.items.length = QUEUE_SIZE
          ∧ ∀ t, h'.emit t = none)
      ∧ ∀ t, (Handler.init ct token).emitAll (texts ++ [t]) = none := by
  obtain ⟨hqi, hqc, -, hgood, hst, -, -⟩ := init_queue ct token
  have hinv : (Handler.init ct token).queue.items.length ≤
      (Handler.init ct token).queue.capacity := by
    rw [hqi, hqc, QUEUE_SIZE]; norm_num
  have hfits : (Handler.init ct token).queue.items.length + texts.length ≤
      (Handler.init ct token).queue.capacity := by
    rw [hqi, hqc, hlen, QUEUE_SIZE]; norm_num
  have hsome := (emitAll_isSome_iff texts _ hinv).mpr hfits
  obtain ⟨h', hh'⟩ := Option.isSome_iff_exists.mp hsome
  refine ⟨rfl, ⟨h', hh', ?_, ?_, ?_⟩, ?_⟩
  · have := emitAll_bad_config texts _ h' (by rw [hgood, hct]) hh'
    rw [this.1, hst]
  · have := emitAll_items texts _ h' hh'
    rw [this.2.2.1, hqi]
    simp only [List.length_append, List.length_cons, List.length_nil,
      List.length_map, hlen, QUEUE_SIZE]
  · intro t
    have hitems := emitAll_items texts _ h' hh'
    rw [emit_unfold, hitems.2.2.1, hitems.2.2.2, hqi, hqc, if_neg]
    simp only [List.length_append, List.length_cons, List.length_nil,
      List.length_map, hlen, QUEUE_SIZE, not_lt]
    omega
  · intro t
    rw [← Option.not_isSome_iff_eq_none]
    rw [emitAll_isSome_iff _ _ hinv]
    rw [hqi, hqc]
    simp only [List.length_cons, List.length_nil, List.length_append,
      List.length_map, hlen, QUEUE_SIZE, not_le]
    omega

/-- Witness for `invalid_token_backpressure`: token `"T"` rejected by the
validity predicate and 32767 one-character submissions. -/
theorem invalid_token_backpressure_witness :
    QUEUE_SIZE = 32768
      ∧ (∃ h', (Handler.init (fun _ => false) "T").emitAll
            (List.replicate 32767 "x") = some h'
          ∧ h'.started = false
          ∧ h'.queue.items.length = QUEUE_SIZE
          ∧ ∀ t, h'.emit t = none)
      ∧ ∀ t, (Handler.init (fun _ => false) "T").emitAll
          (List.replicate 32767 "x" ++ [t]) = none :=
  invalid_token_backpressure (fun _ => false) "T" (List.replicate 32767 "x")
    rfl (by rw [List.length_replicate, QUEUE_SIZE])

/-- C4 fails as stated: with an invalid credential the dispatcher indeed
never starts, but not *every* submission is accepted — the queue (capacity
`QUEUE_SIZE`, one slot holding the priming message) fills after 32767
submissions and the 32768th blocks forever (`emitAll` returns `none`). -/
theorem invalid_token_accept_counterexample :
    (Handler.init (fun _ => false) "T").emitAll
        (List.replicate QUEUE_SIZE "x") = none := by
  rw [← Option.not_isSome_iff_eq_none]
  obtain ⟨hqi, hqc, -, -, -, -, -⟩ := init_queue (fun _ => false) "T"
  rw [emitAll_isSome_iff _ _ (by rw [hqi, hqc, QUEUE_SIZE]; norm_num)]
  rw [hqi, hqc, List.length_replicate, QUEUE_SIZE]
  norm_num

/-- C4 (amended): if the credential fails the validity check at
construction, the dispatcher thread is never started by any number of
subsequent submissions, every submission made while the queue is below its
capacity is accepted into the queue with no error returned to the producer,
and exactly one diagnostic (`INVALID_TOKEN`) is emitted, at construction. -/
theorem invalid_token_noop (ct : String → Bool) (token : String)
    (texts : List String) (hct : ct token = false)
    (hlen : texts.length + 1 ≤ QUEUE_SIZE) :
    ∃ h', (Handler.init ct token).emitAll texts = some h'
      ∧ h'.started = false ∧ h'.startCount = 0
      ∧ h'.dbgs = [INVALID_TOKEN]
      ∧ h'.queue.items = (token ++ LIBRARY_IDENTIFIER ++ "\n")
          :: texts.map (fun t => token ++ rstripNl t) := by
  obtain ⟨hqi, hqc, -, hgood, hst, hcnt, hdbg⟩ := init_queue ct token
  have hinv : (Handler.init ct token).queue.items.length ≤
      (Handler.init ct token).queue.capacity := by
    rw [hqi, hqc, QUEUE_SIZE]; norm_num
  have hsome := (emitAll_isSome_iff texts _ hinv).mpr (by
    rw [hqi, hqc]
    simp only [List.length_cons, List.length_nil]
    omega)
  obtain ⟨h', hh'⟩ := Option.isSome_iff_exists.mp hsome
  have hbad := emitAll_bad_config texts _ h' (by rw [hgood, hct]) hh'
  have hitems := emitAll_items texts _ h' hh'
  refine ⟨h', hh', ?_, ?_, ?_, ?_⟩
  · rw [hbad.1, hst]
  · rw [hbad.2.1, hcnt]
  · rw [hbad.2.2, hdbg, if_neg (by rw [hct]; exact Bool.false_ne_true)]
  · rw [hitems.2.2.1, hqi]
    have htok : (Handler.init ct token).token = token := rfl
    rw [htok]
    rfl

/-- Witness for `invalid_token_noop`: token `"T"` rejected by the validity
predicate and two submissions. -/
theorem invalid_token_noop_witness :
    ∃ h', (Handler.init (fun _ => false) "T").emitAll ["a", "b"] = some h'
      ∧ h'.started = false ∧ h'.startCount = 0
      ∧ h'.dbgs = [INVALID_TOKEN]
      ∧ h'.queue.items = ("T" ++ LIBRARY_IDENTIFIER ++ "\n")
          :: (["a", "b"] : List String).map (fun t => "T" ++ rstripNl t) :=
  invalid_token_noop (fun _ => false) "T" ["a", "b"] rfl
    (by norm_num [QUEUE_SIZE])

/-- C6: the appender thread is not alive before the first submission (it is
not started at construction), and with a credential that passed the validity
check it is started exactly once, on the first submission; no later
submission starts it again while it is alive (the start diagnostic is also
printed exactly once). -/
theorem lazy_single_start (ct : String → Bool) (token : String)
    (texts : List String) (h' : Handler) (hct : ct token = true)
    (hrun : (Handler.init ct token).emitAll texts = some h') :
    (Handler.init ct token).started = false
      ∧ (Handler.init ct token).startCount = 0
      ∧ h'.started = !texts.isEmpty
      ∧ h'.startCount = (if texts.isEmpty then 0 else 1)
      ∧ h'.dbgs = (if texts.isEmpty then [] else [STARTING_MSG]) := by
  obtain ⟨hqi, hqc, -, hgood, hst, hcnt, hdbg⟩ := init_queue ct token
  refine ⟨hst, hcnt, ?_⟩
  cases texts with
  | nil =>
    rw [Handler.emitAll] at hrun
    cases hrun
    simp [hst, hcnt, hdbg, hct]
  | cons t ts =>
    rw [Handler.emitAll, Option.bind_eq_some] at hrun
    obtain ⟨h1, he1, he2⟩ := hrun
    rw [emit_unfold, if_pos (by rw [hqi, hqc, QUEUE_SIZE]; norm_num),
      Option.some.injEq] at he1
    subst he1
    have hs := emitAll_started ts _ h' (by simp [hst, hgood, hct]) he2
    refine ⟨by simpa using hs.1, ?_, ?_⟩
    · rw [hs.2.1]
      simp [hst, hgood, hct, hcnt]
    · rw [hs.2.2]
      simp [hst, hgood, hct, hdbg]

/-- Witness for `lazy_single_start`: a fresh valid-token handler after two
submissions. -/
theorem lazy_single_start_witness :
    (Handler.init (fun _ => true) "T").started = false
      ∧ (Handler.init (fun _ => true) "T").startCount = 0
      ∧ sampleEmitted2.started = !(["a", "b"] : List String).isEmpty
      ∧ sampleEmitted2.startCount = (if (["a", "b"] : List String).isEmpty then 0 else 1)
      ∧ sampleEmitted2.dbgs = (if (["a", "b"] : List String).isEmpty then [] else [STARTING_MSG]) :=
  lazy_single_start (fun _ => true) "T" ["a", "b"] sampleEmitted2 rfl (by rfl)

/-- C7 fails as stated: `emit` enqueues `token + format(record).rstrip('\n')`,
so a formatted text ending in a newline is not enqueued verbatim: with token
`"T"` and formatted text `"a\n"` the enqueued string is `"Ta"`, not
`"T" ++ "a\n"`. -/
theorem emit_token_concat_counterexample :
    ((Handler.init (fun _ => true) "T").emit "a\n").map
        (fun h => h.queue.items.getLast?) = some (some "Ta")
      ∧ ("Ta" : String) ≠ "T" ++ "a\n" := by
  constructor
  · rfl
  · decide

/-- C7 (amended): for every submitted formatted text, the string enqueued is
the access token concatenated with the formatted text with its trailing
newline characters stripped (`token ++ rstrip('\n') text`); when the
formatted text does not end in a newline this is exactly
`token ++ formattedText`. -/
theorem emit_enqueues_token_rstrip (h : Handler) (t : String) (h' : Handler)
    (he : h.emit t = some h') :
    h'.queue.items = h.queue.items ++ [h.token ++ rstripNl t]
      ∧ (t.data.getLast? ≠ some '\n' → h.token ++ rstripNl t = h.token ++ t) := by
  constructor
  · rw [emit_unfold] at he
    by_cases hlen : h.queue.items.length < h.queue.capacity
    · rw [if_pos hlen, Option.some.injEq] at he
      subst he
      rfl
    · rw [if_neg hlen] at he
      exact absurd he (by simp)
  · intro hnl
    rw [rstripNl_eq_self t hnl]

/-- Witness for `emit_enqueues_token_rstrip`: a fresh valid-token handler
submitting `"hello"`. -/
theorem emit_enqueues_token_rstrip_witness :
    sampleEmitted.queue.items =
        sampleHandler.queue.items ++ [sampleHandler.token ++ rstripNl "hello"]
      ∧ ("hello".data.getLast? ≠ some '\n' →
          sampleHandler.token ++ rstripNl "hello" = sampleHandler.token ++ "hello") :=
  emit_enqueues_token_rstrip sampleHandler "hello" sampleEmitted (by rfl)

/-- C5 fails as stated: the priming message is `token + LIBRARY_IDENTIFIER`
(token first), so the first transmitted line does *not* begin with the
library identifier concatenated with the token: with token `"T"` the first
line on the wire is `frame ("T" ++ LIBRARY_IDENTIFIER ++ "\n")`, whose first
32 characters differ from `(LIBRARY_IDENTIFIER ++ "T").data`. -/
theorem priming_order_counterexample :
    (runLoop (Handler.init (fun _ => true) "T").queue.items [true]).map
        (fun w => w.head?)
      = some (some (frame ("T" ++ LIBRARY_IDENTIFIER ++ "\n")))
      ∧ (frame ("T" ++ LIBRARY_IDENTIFIER ++ "\n")).take
          (LIBRARY_IDENTIFIER ++ "T").data.length
        ≠ (LIBRARY_IDENTIFIER ++ "T").data := by
  constructor
  · rfl
  · decide

/-- C5 (amended): at construction a single priming message is placed in the
queue before any submitted message, and the first line transmitted after the
very first submission begins with the caller's access token concatenated
with the fixed library identifier string (in that order), before any
subsequently submitted user message. -/
theorem priming_first (ct : String → Bool) (token : String)
    (texts : List String) (h' : Handler) (outs : List Bool)
    (wire : List (List Char))
    (hnl : '\n' ∉ token.data)
    (hrun : (Handler.init ct token).emitAll texts = some h')
    (hwire : runLoop h'.queue.items outs = some wire) :
    h'.queue.items.head? = some (token ++ LIBRARY_IDENTIFIER ++ "\n")
      ∧ wire.head? = some (token.data ++ LIBRARY_IDENTIFIER.data ++ [LINE_SEP, '\n'])
      ∧ wire = frame (token ++ LIBRARY_IDENTIFIER ++ "\n")
          :: (texts.map (fun t => token ++ rstripNl t)).map frame := by
  have hitems := emitAll_items texts _ h' hrun
  have htok : (Handler.init ct token).token = token := rfl
  obtain ⟨hqi, -, -, -, -, -, -⟩ := init_queue ct token
  have hqitems : h'.queue.items = (token ++ LIBRARY_IDENTIFIER ++ "\n")
      :: texts.map (fun t => token ++ rstripNl t) := by
    rw [hitems.2.2.1, hqi, htok]
    rfl
  have hwireEq := runLoop_eq_map_frame _ _ _ hwire
  have hframe : frame (token ++ LIBRARY_IDENTIFIER ++ "\n")
      = token.data ++ LIBRARY_IDENTIFIER.data ++ [LINE_SEP, '\n'] := by
    rw [frame_append_newline token]
    rw [String.data_append]
    rw [replaceNewlines_eq_self _ (by
      intro c hc
      rcases List.mem_append.mp hc with hmem | hmem
      · exact fun hh => hnl (hh ▸ hmem)
      · exact libid_no_newline c hmem)]
  refine ⟨?_, ?_, ?_⟩
  · rw [hqitems]
    rfl
  · rw [hwireEq, hqitems]
    simp [hframe]
  · rw [hwireEq, hqitems]
    simp

/-- Witness for `priming_first`: token `"T"`, one submission `"hello"`, all
sends succeeding. -/
theorem priming_first_witness :
    sampleEmitted.queue.items.head? = some ("T" ++ LIBRARY_IDENTIFIER ++ "\n")
      ∧ sampleWire.head? = some ("T".data ++ LIBRARY_IDENTIFIER.data ++ [LINE_SEP, '\n'])
      ∧ sampleWire = frame ("T" ++ LIBRARY_IDENTIFIER ++ "\n")
          :: ((["hello"] : List String).map (fun t => "T" ++ rstripNl t)).map frame :=
  priming_first (fun _ => true) "T" ["hello"] sampleEmitted [true, true]
    sampleWire (by decide) (by rfl) (by rfl)

/-- C8: a `KeyboardInterrupt` delivered at any blocking point of the
dispatcher is the only way the background task terminates, and every
termination is clean: the interrupt is not swallowed by the connect-retry or
send-retry loops, `run` catches it (printing exactly the interrupt
diagnostic — no error propagates to producers) and closes the underlying
connection; without an interrupt the dispatcher never terminates. -/
theorem interrupt_clean_exit (evs : List Ev) :
    (∀ out, runE evs = some out →
        out.connClosed = true ∧ out.dbgs = [INTERRUPTED_MSG])
      ∧ (Ev.intr ∉ evs → runE evs = none) := by
  constructor
  · intro out hout
    rw [runE] at hout
    split at hout
    · cases hout
      exact ⟨rfl, rfl⟩
    · split at hout
      · cases hout
        exact ⟨rfl, rfl⟩
      · cases hout
    · cases hout
  · intro hni
    rw [runE]
    split
    · rename_i rest heq
      exact absurd ((reopen_sleep_intr_mem evs).1 rest heq) hni
    · rename_i a r heq
      obtain ⟨pre, hpre⟩ := (reopen_sleep_ok_suffix evs).1 a r heq
      have hni' : Ev.intr ∉ r :=
        fun hmem => hni (by rw [hpre]; exact List.mem_append_right _ hmem)
      rw [mainLoopE_no_intr _ r [] hni']
    · rfl

/-- Witness for `interrupt_clean_exit`: an interrupt at the dequeue point
after one message survives a send failure, and an interrupt-free trace gives
no termination. -/
theorem interrupt_clean_exit_witness :
    (({ wire := [frame "hey"], dbgs := [INTERRUPTED_MSG], connClosed := true } :
          RunOut).connClosed = true
      ∧ ({ wire := [frame "hey"], dbgs := [INTERRUPTED_MSG], connClosed := true } :
          RunOut).dbgs = [INTERRUPTED_MSG])
      ∧ runE [Ev.connOk, Ev.gotMsg "hey", Ev.sendOk] = none :=
  ⟨(interrupt_clean_exit [Ev.connFail, Ev.sleepDone, Ev.connOk, Ev.gotMsg "hey",
      Ev.sendErr, Ev.connOk, Ev.sendOk, Ev.intr]).1
      { wire := [frame "hey"], dbgs := [INTERRUPTED_MSG], connClosed := true }
      (by rfl),
   (interrupt_clean_exit [Ev.connOk, Ev.gotMsg "hey", Ev.sendOk]).2 (by decide)⟩

end Logentries
